import Mathlib

/-!
Verification development for the NYC-Property-Scout streaming ingestion and
report-parsing pipeline.

The embedded code:
* `frontend/src/services/api.js`, `streamWatsonAnalysis` (lines 75-169): the
  SSE stream decoder (byte buffer, line splitting, per-line JSON dispatch).
* `frontend/src/pages/PropertyDetail.jsx`, `triggerWatsonAnalysis`
  (lines 44-101): the message classifier / report accumulator callback.
* `ScoreCard.jsx`, `parseReport` (the component shipped outside `src/frontend`
  in this snapshot): the report normalizer (fenced JSON, bare JSON, markdown
  label extraction).

Strings are modelled as `List Char`.  The JS runtime values that flow through
this code are modelled by the inductive `Json` below, extended with `undef`
(JS `undefined`, which property access on a non-object produces) and `nan`
(the `NaN` a failed `parseInt` produces).  JSON numbers are kept exact as
`mantissa / 10 ^ exp10` rather than IEEE doubles; none of the code under
verification performs numeric arithmetic, so exactness only widens the set of
distinguishable numbers.  `TextDecoder(..., {stream: true})` never emits a
partial code point, so byte-level fragmentation of the network stream is
modelled as fragmentation of the character sequence at arbitrary offsets.
-/

/-- Characters of a string literal. -/
def chars (s : String) : List Char := s.data

/-- The `{` character (written numerically: braces in literals are avoided). -/
def braceL : Char := Char.ofNat 123

/-- The `}` character. -/
def braceR : Char := Char.ofNat 125

/-- The apostrophe character. -/
def apos : Char := Char.ofNat 39

/-- JS whitespace (`\s`, `String.prototype.trim`): ASCII whitespace plus
NBSP and the BOM.  (The rarer Unicode space code points are omitted; no
input in this development contains them.) -/
def jsWs (c : Char) : Bool :=
  c = ' ' || c = '\t' || c = '\n' || c = '\r' ||
  c = Char.ofNat 11 || c = Char.ofNat 12 || c = Char.ofNat 160 || c = Char.ofNat 65279

/-- `String.prototype.trim`. -/
def jsTrim (s : List Char) : List Char :=
  ((s.dropWhile jsWs).reverse.dropWhile jsWs).reverse

/-- JSON whitespace accepted between tokens by `JSON.parse` (RFC 8259). -/
def jsonWsChar (c : Char) : Bool :=
  c = ' ' || c = '\t' || c = '\n' || c = '\r'

/-- Drop leading JSON whitespace. -/
def skipJWs (s : List Char) : List Char := s.dropWhile jsonWsChar

/-- Decimal digits of a digit run, most significant first. -/
def digitsToNat (ds : List Char) : Nat :=
  ds.foldl (fun a c => a * 10 + (c.toNat - 48)) 0

/-- An exact JSON number: `mantissa / 10 ^ exp10`.  Normalised so that a
nonzero `exp10` implies `mantissa` is not divisible by 10; this makes value
equality structural (the code only ever copies and compares numbers). -/
structure JNum where
  mantissa : Int
  exp10 : Nat
deriving DecidableEq

/-- Strip common factors of 10 out of the fractional scale. -/
def JNum.norm (m : Int) : Nat → JNum
  | 0 => ⟨m, 0⟩
  | e + 1 => if m % 10 = 0 then JNum.norm (m / 10) e else ⟨m, e + 1⟩

/-- The integer `n` as a `JNum`. -/
def JNum.ofInt (n : Int) : JNum := ⟨n, 0⟩

/-- A JS value as it flows through this code: the JSON values plus
`undefined` (missing property) and `NaN` (failed `parseInt`). -/
inductive Json where
  | null
  | undef
  | nan
  | bool (b : Bool)
  | num (n : JNum)
  | str (s : List Char)
  | arr (elems : List Json)
  | obj (fields : List (List Char × Json))

/-- JS truthiness.  `undefined`, `null`, `NaN`, `false`, `0` and the empty
string are falsy; every object and array is truthy. -/
def truthy : Json → Bool
  | .null => false
  | .undef => false
  | .nan => false
  | .bool b => b
  | .num n => n.mantissa ≠ 0
  | .str s => !s.isEmpty
  | .arr _ => true
  | .obj _ => true

/-- Whether the value is `undefined` (for `!== undefined` checks). -/
def Json.isUndef : Json → Bool
  | .undef => true
  | _ => false

/-- Strict equality against a string literal (`v === 'lit'`). -/
def Json.strEq (v : Json) (lit : List Char) : Bool :=
  match v with
  | .str s => s = lit
  | _ => false

/-- Look a key up in an object's field list (keys are unique by
construction, see `objSet`). -/
def objLookup (fs : List (List Char × Json)) (k : List Char) : Json :=
  match fs with
  | [] => .undef
  | (k', v) :: rest => if k' = k then v else objLookup rest k

/-- JS property assignment on a field list: an existing key keeps its
position and gets the new value, a new key is appended. -/
def objSet (fs : List (List Char × Json)) (k : List Char) (v : Json) :
    List (List Char × Json) :=
  match fs with
  | [] => [(k, v)]
  | (k', v') :: rest =>
    if k' = k then (k', v) :: rest else (k', v') :: objSet rest k v

/-- Decimal digit characters of a natural number. -/
def natToChars (n : Nat) : List Char := Nat.toDigits 10 n

/-- Decimal rendering of an integer. -/
def intToChars (n : Int) : List Char :=
  if n < 0 then '-' :: natToChars n.natAbs else natToChars n.natAbs

/-- JS `Number`-to-string for the exact decimals produced here: integers
print without a point, fractions print all (normalised) decimal digits.
(The exponent notation JS switches to beyond 1e21 is not modelled; no value
in this development reaches it.) -/
def JNum.toChars (n : JNum) : List Char :=
  if n.exp10 = 0 then intToChars n.mantissa
  else
    let ds := natToChars n.mantissa.natAbs
    let ds := if ds.length ≤ n.exp10 then List.replicate (n.exp10 + 1 - ds.length) '0' ++ ds else ds
    let intPart := ds.take (ds.length - n.exp10)
    let fracPart := ds.drop (ds.length - n.exp10)
    (if n.mantissa < 0 then ['-'] else []) ++ intPart ++ '.' :: fracPart

/-- Property read `v[k]`, JS semantics: reading on `null`/`undefined`
throws (`Except.error`); reading a key on a primitive or array yields
`undefined` (none of the keys this code reads — `type`, `scores`, … — is
`length` or an index); reading on an object looks the key up. -/
def jsGetE (v : Json) (k : List Char) : Except Unit Json :=
  match v with
  | .null => .error ()
  | .undef => .error ()
  | .obj fs => .ok (objLookup fs k)
  | _ => .ok (Json.undef)

/-- Property read on a receiver already known non-nullish (cannot throw). -/
def jsGetD (v : Json) (k : List Char) : Json :=
  match jsGetE v k with
  | .ok x => x
  | .error _ => (Json.undef)

/-- The nullish-coalescing operator `a ?? b`. -/
def jsNN (a b : Json) : Json :=
  match a with
  | .null => b
  | .undef => b
  | _ => a

/-- Optional chaining `v?.[k]`: `undefined` on a nullish receiver. -/
def jsOptGet (v : Json) (k : List Char) : Json :=
  match v with
  | .null => .undef
  | .undef => .undef
  | _ => jsGetD v k

/-- Object spread `{...v}` as a field list: objects copy their fields,
strings and arrays enumerate their elements under numeric keys, other
primitives contribute nothing. -/
def spreadFields : Json → List (List Char × Json)
  | .obj fs => fs
  | .str s => (s.enum.map fun (i, c) => (natToChars i, Json.str [c]))
  | .arr xs => (xs.enum.map fun (i, x) => (natToChars i, x))
  | _ => []

/-! ### `JSON.parse` (ECMA-404 / RFC 8259 grammar, strict) -/

/-- Hexadecimal digit value. -/
def hexDigitVal (c : Char) : Option Nat :=
  if '0' ≤ c ∧ c ≤ '9' then some (c.toNat - 48)
  else if 'a' ≤ c ∧ c ≤ 'f' then some (c.toNat - 87)
  else if 'A' ≤ c ∧ c ≤ 'F' then some (c.toNat - 55)
  else none

/-- Single-character JSON escapes. -/
def jsonEscChar (c : Char) : Option Char :=
  if c = '"' then some '"'
  else if c = '\\' then some '\\'
  else if c = '/' then some '/'
  else if c = 'b' then some (Char.ofNat 8)
  else if c = 'f' then some (Char.ofNat 12)
  else if c = 'n' then some '\n'
  else if c = 'r' then some '\r'
  else if c = 't' then some '\t'
  else none

/-- Body of a JSON string after the opening quote: decoded content and the
input remaining after the closing quote.  Raw control characters are a
syntax error, as in `JSON.parse`.  (`\uXXXX` maps through `Char.ofNat`;
surrogate-pair recombination is not modelled — no input here uses it.) -/
def jsonStrBody : List Char → Option (List Char × List Char)
  | [] => none
  | c :: rest =>
    if c = '"' then some ([], rest)
    else if c = '\\' then
      match rest with
      | [] => none
      | e :: r2 =>
        if e = 'u' then
          match r2 with
          | h1 :: h2 :: h3 :: h4 :: r3 => do
            let a ← hexDigitVal h1
            let b ← hexDigitVal h2
            let cc ← hexDigitVal h3
            let d ← hexDigitVal h4
            let (t, rr) ← jsonStrBody r3
            pure (Char.ofNat (((a * 16 + b) * 16 + cc) * 16 + d) :: t, rr)
          | _ => none
        else do
          let ec ← jsonEscChar e
          let (t, rr) ← jsonStrBody r2
          pure (ec :: t, rr)
    else if c.toNat < 32 then none
    else do
      let (t, rr) ← jsonStrBody rest
      pure (c :: t, rr)

/-- Split a leading digit run. -/
def takeDigitRun (s : List Char) : List Char × List Char :=
  (s.takeWhile Char.isDigit, s.dropWhile Char.isDigit)

/-- Build the exact value `sign · digits · 10^(expVal - fracLen)`. -/
def mkJNum (neg : Bool) (intDs fracDs : List Char) (expVal : Int) : JNum :=
  let m : Int := digitsToNat (intDs ++ fracDs)
  let m := if neg then -m else m
  let e : Int := expVal - fracDs.length
  if 0 ≤ e then ⟨m * 10 ^ e.toNat, 0⟩ else JNum.norm m (-e).toNat

/-- JSON number literal: optional minus, integer part without leading
zeros, optional fraction, optional exponent — exactly the strict grammar
`JSON.parse` enforces ("01" is a syntax error). -/
def jsonNumLit (s : List Char) : Option (JNum × List Char) :=
  let (neg, s1) := match s with
    | '-' :: r => (true, r)
    | _ => (false, s)
  match s1 with
  | [] => none
  | c :: _ =>
    if ¬ c.isDigit then none
    else
      let (intDs, s2) :=
        if c = '0' then (['0'], s1.tail) else takeDigitRun s1
      match intDs, s2 with
      | ['0'], d :: _ =>
        if d.isDigit then none else jsonNumFrac neg intDs s2
      | _, _ => jsonNumFrac neg intDs s2
where
  /-- Fraction and exponent parts. -/
  jsonNumFrac (neg : Bool) (intDs : List Char) (s2 : List Char) :
      Option (JNum × List Char) :=
    let fracRes : Option (List Char × List Char) :=
      match s2 with
      | '.' :: r =>
        let (ds, r') := takeDigitRun r
        if ds.isEmpty then none else some (ds, r')
      | _ => some ([], s2)
    match fracRes with
    | none => none
    | some (fracDs, s3) =>
      let expRes : Option (Int × List Char) :=
        match s3 with
        | 'e' :: r | 'E' :: r =>
          let (esgn, r1) : Bool × List Char := match r with
            | '+' :: rr => (false, rr)
            | '-' :: rr => (true, rr)
            | _ => (false, r)
          let (eds, r2) := takeDigitRun r1
          if eds.isEmpty then none
          else some ((if esgn then -(digitsToNat eds : Int) else digitsToNat eds), r2)
        | _ => some (0, s3)
      match expRes with
      | none => none
      | some (ev, s4) => some (mkJNum neg intDs fracDs ev, s4)

mutual

/-- One JSON value (leading whitespace allowed), by fuel. -/
def jsonVal : Nat → List Char → Option (Json × List Char)
  | 0, _ => none
  | fuel + 1, s =>
    match skipJWs s with
    | [] => none
    | c :: rest =>
      if c = '"' then (jsonStrBody rest).map fun (str, r) => (Json.str str, r)
      else if c = '[' then
        match skipJWs rest with
        | ']' :: r2 => some (Json.arr [], r2)
        | r1 => (jsonElems fuel r1).map fun (xs, r2) => (Json.arr xs, r2)
      else if c = braceL then
        match skipJWs rest with
        | d :: r2 =>
          if d = braceR then some (Json.obj [], r2)
          else
            (jsonMembers fuel (d :: r2)).map fun (ms, r3) =>
              (Json.obj (ms.foldl (fun acc kv => objSet acc kv.1 kv.2) []), r3)
        | [] => none
      else if c = 'n' then
        match rest with
        | 'u' :: 'l' :: 'l' :: r2 => some (Json.null, r2)
        | _ => none
      else if c = 't' then
        match rest with
        | 'r' :: 'u' :: 'e' :: r2 => some (Json.bool true, r2)
        | _ => none
      else if c = 'f' then
        match rest with
        | 'a' :: 'l' :: 's' :: 'e' :: r2 => some (Json.bool false, r2)
        | _ => none
      else (jsonNumLit (c :: rest)).map fun (n, r) => (Json.num n, r)

/-- Comma-separated array elements up to `]`. -/
def jsonElems : Nat → List Char → Option (List Json × List Char)
  | 0, _ => none
  | fuel + 1, s => do
    let (v, r) ← jsonVal fuel s
    match skipJWs r with
    | ',' :: r2 => do
      let (xs, r3) ← jsonElems fuel r2
      pure (v :: xs, r3)
    | ']' :: r2 => pure ([v], r2)
    | _ => none

/-- Comma-separated object members up to the closing brace (raw order;
duplicate keys are collapsed by the caller with `objSet`, last value
winning in the first occurrence's position, as in JS). -/
def jsonMembers : Nat → List Char → Option (List (List Char × Json) × List Char)
  | 0, _ => none
  | fuel + 1, s =>
    match skipJWs s with
    | '"' :: r1 => do
      let (k, r2) ← jsonStrBody r1
      match skipJWs r2 with
      | ':' :: r3 => do
        let (v, r4) ← jsonVal fuel r3
        match skipJWs r4 with
        | ',' :: r5 => do
          let (ms, r6) ← jsonMembers fuel r5
          pure ((k, v) :: ms, r6)
        | d :: r5 =>
          if d = braceR then pure ([(k, v)], r5) else none
        | [] => none
      | _ => none
    | _ => none

end

/-- `JSON.parse` on a character sequence: one value, then only trailing
whitespace.  `none` models the thrown `SyntaxError`. -/
def jsonParse (s : List Char) : Option Json :=
  match jsonVal (2 * s.length + 4) s with
  | some (v, rest) => if (skipJWs rest).isEmpty then some v else none
  | none => none

/-! ### `JSON.stringify(v, null, 2)` -/

/-- Lowercase hex digits of a code point, padded to four. -/
def hex4Chars (n : Nat) : List Char :=
  let dig := fun (k : Nat) => if k < 10 then Char.ofNat (48 + k) else Char.ofNat (87 + k - 10)
  [dig (n / 4096 % 16), dig (n / 256 % 16), dig (n / 16 % 16), dig (n % 16)]

/-- JSON string quoting as `JSON.stringify` performs it: quote, backslash
and the named control escapes, `\u00xx` for other control characters,
everything else verbatim. -/
def quoteJStr (s : List Char) : List Char :=
  '"' :: go s
where
  go : List Char → List Char
    | [] => ['"']
    | c :: rest =>
      if c = '"' then '\\' :: '"' :: go rest
      else if c = '\\' then '\\' :: '\\' :: go rest
      else if c = Char.ofNat 8 then '\\' :: 'b' :: go rest
      else if c = '\t' then '\\' :: 't' :: go rest
      else if c = '\n' then '\\' :: 'n' :: go rest
      else if c = Char.ofNat 12 then '\\' :: 'f' :: go rest
      else if c = '\r' then '\\' :: 'r' :: go rest
      else if c.toNat < 32 then '\\' :: 'u' :: hex4Chars c.toNat ++ go rest
      else c :: go rest

/-- Interpose a separator between rendered items. -/
def joinSep (sep : List Char) : List (List Char) → List Char
  | [] => []
  | [x] => x
  | x :: y :: rest => x ++ sep ++ joinSep sep (y :: rest)

/-- Keep the object fields `JSON.stringify` serialises (it skips
`undefined`-valued properties). -/
def stringifiableFields (fs : List (List Char × Json)) : List (List Char × Json) :=
  fs.filter fun kv => !(kv.2.isUndef)

/-- `JSON.stringify(v, null, 2)` at nesting indent `ind`, by fuel.
`undefined` and `NaN` render as `null` (exact for the array/`NaN` cases;
top-level `undefined` never reaches this function). -/
def stringifyF : Nat → Nat → Json → List Char
  | 0, _, _ => []
  | fuel + 1, ind, v =>
    match v with
    | .null => chars "null"
    | .undef => chars "null"
    | .nan => chars "null"
    | .bool true => chars "true"
    | .bool false => chars "false"
    | .num n => n.toChars
    | .str s => quoteJStr s
    | .arr [] => chars "[]"
    | .arr xs =>
      '[' :: '\n' ::
        joinSep (chars ",\n")
          (xs.map fun x => List.replicate (ind + 2) ' ' ++ stringifyF fuel (ind + 2) x) ++
        '\n' :: List.replicate ind ' ' ++ [']']
    | .obj fs =>
      match stringifiableFields fs with
      | [] => [braceL, braceR]
      | fs' =>
        braceL :: '\n' ::
          joinSep (chars ",\n")
            (fs'.map fun kv =>
              List.replicate (ind + 2) ' ' ++ quoteJStr kv.1 ++ ':' :: ' ' ::
                stringifyF fuel (ind + 2) kv.2) ++
          '\n' :: List.replicate ind ' ' ++ [braceR]

mutual

/-- A computable bound on nesting depth, used as stringify fuel. -/
def jsonFuel : Json → Nat
  | .arr xs => 1 + jsonFuelArr xs
  | .obj fs => 1 + jsonFuelObj fs
  | _ => 1

/-- Depth bound over array elements. -/
def jsonFuelArr : List Json → Nat
  | [] => 0
  | x :: xs => max (jsonFuel x) (jsonFuelArr xs)

/-- Depth bound over object field values. -/
def jsonFuelObj : List (List Char × Json) → Nat
  | [] => 0
  | (_, v) :: fs => max (jsonFuel v) (jsonFuelObj fs)

end

/-- `JSON.stringify(v, null, 2)` (`jsonFuel` bounds the nesting depth, so
the fuel never runs out). -/
def stringify2 (v : Json) : List Char := stringifyF (jsonFuel v) 0 v

/-! ### Stream Decoder — `streamWatsonAnalysis`, `api.js` lines 102-152 -/

mutual

/-- JS `String(v)` coercion (the implicit conversion `JSON.parse` applies
to a non-string argument). -/
def jsToStr : Json → List Char
  | .null => chars "null"
  | .undef => chars "undefined"
  | .nan => chars "NaN"
  | .bool true => chars "true"
  | .bool false => chars "false"
  | .num n => n.toChars
  | .str s => s
  | .arr xs => jsToStrArr xs
  | .obj _ => chars "[object Object]"

/-- `Array.prototype.toString`: elements joined by commas, nullish
elements rendering empty. -/
def jsToStrArr : List Json → List Char
  | [] => []
  | [x] =>
    (match x with
     | .null => []
     | .undef => []
     | _ => jsToStr x)
  | x :: y :: xs =>
    (match x with
     | .null => []
     | .undef => []
     | _ => jsToStr x) ++ ',' :: jsToStrArr (y :: xs)

end

/-- `api.js` lines 130-140: the message branch re-parses the `content`
payload; if it parses as JSON the parsed object is re-serialised with
2-space pretty printing, otherwise the content is passed through as-is. -/
def contentTransform (content : Json) : Json :=
  match jsonParse (jsToStr content) with
  | some cobj => Json.str (stringify2 cobj)
  | none => content

/-- A decoded stream event.  `connected` reaches only `console.log` in the
source; the other four reach the registered callbacks.  Payloads are the
raw property reads (`undefined` when the key is absent). -/
inductive SEvent where
  | connected (runId : Json)
  | status (s : Json)
  | message (content : Json)
  | done (threadId : Json)
  | error (e : Json)

/-- `api.js` lines 115-150: events produced by one complete line.  Lines
without the `data: ` prefix are ignored; an empty payload after trimming is
skipped; a payload that fails `JSON.parse` — or whose parse result is
`null`, so that reading `.type` throws — is swallowed by the `catch` and
produces nothing. -/
def lineEvents (line : List Char) : List SEvent :=
  if (chars "data: ").isPrefixOf line then
    let data := jsTrim (line.drop 6)
    if data.isEmpty then []
    else
      match jsonParse data with
      | none => []
      | some parsed =>
        match jsGetE parsed (chars "type") with
        | .error _ => []
        | .ok t =>
          if t.strEq (chars "connected") then
            [.connected (jsGetD parsed (chars "run_id"))]
          else if t.strEq (chars "status") then
            [.status (jsGetD parsed (chars "status"))]
          else if t.strEq (chars "message") then
            [.message (contentTransform (jsGetD parsed (chars "content")))]
          else if t.strEq (chars "done") then
            [.done (jsGetD parsed (chars "thread_id"))]
          else if t.strEq (chars "error") then
            [.error (jsGetD parsed (chars "error"))]
          else []
  else []

/-- `api.js` lines 112-113: `const lines = buffer.split('\n'); buffer =
lines.pop();` — the complete lines and the retained trailing rest. -/
def jsSplitPop : List Char → List (List Char) × List Char
  | [] => ([], [])
  | c :: cs =>
    let (ls, r) := jsSplitPop cs
    if c = '\n' then ([] :: ls, r)
    else
      match ls with
      | [] => ([], c :: r)
      | l :: ls' => ((c :: l) :: ls', r)

/-- One iteration of the read loop (`api.js` lines 111-151): append the
chunk to the buffer, split off the complete lines, dispatch each. -/
def processChunk (buffer chunk : List Char) : List Char × List SEvent :=
  let (ls, r) := jsSplitPop (buffer ++ chunk)
  (r, ls.flatMap lineEvents)

/-- The read loop from a given buffer over the remaining network
fragments; on end of stream the loop breaks and the leftover buffer is
discarded (`api.js` lines 106-109). -/
def decodeFrom (buffer : List Char) : List (List Char) → List SEvent
  | [] => []
  | c :: cs =>
    let (b', evs) := processChunk buffer c
    evs ++ decodeFrom b' cs

/-- The Stream Decoder: the ordered event sequence `streamWatsonAnalysis`
yields for a stream delivered as the given list of fragments. -/
def decodeFragments (frags : List (List Char)) : List SEvent :=
  decodeFrom [] frags

/-! ### Chunk Classifier / Report Accumulator —
`triggerWatsonAnalysis` message callback, `PropertyDetail.jsx` lines 55-83 -/

/-- How one `Message` content string is classified by the callback. -/
inductive MsgClass where
  | finalChunk
  | discardChunk
  | textChunk
deriving DecidableEq

/-- `String.prototype.includes`: `m` occurs as a contiguous substring. -/
def isSubstr (m : List Char) : List Char → Bool
  | [] => m.isEmpty
  | s@(_ :: rest) => m.isPrefixOf s || isSubstr m rest

/-- `PropertyDetail.jsx` lines 77-82: append unless the exact text already
occurs as a substring of the accumulated draft (`prev.includes(message)`). -/
def appendIncremental (prev m : List Char) : List Char :=
  if isSubstr m prev then prev else prev ++ m

/-- `PropertyDetail.jsx` lines 57-74: parse the content as JSON; a parse
with a truthy `scores` whose `overall_transparency_grade` or
`overall_grade` is defined is the final report (replace); other parses
with a truthy `property` or `scores` are partial data (discard); a parse
failure — or the `TypeError` thrown by reading `.scores` off a `null`
parse, which the same `catch` swallows — makes the content incremental
text. -/
def classifyMessage (m : List Char) : MsgClass :=
  match jsonParse m with
  | none => .textChunk
  | some parsed =>
    match jsGetE parsed (chars "scores") with
    | .error _ => .textChunk
    | .ok scores =>
      if truthy scores &&
          (!(jsGetD scores (chars "overall_transparency_grade")).isUndef ||
           !(jsGetD scores (chars "overall_grade")).isUndef) then
        .finalChunk
      else
        match jsGetE parsed (chars "property") with
        | .error _ => .textChunk
        | .ok prop =>
          if truthy prop || truthy scores then .discardChunk else .textChunk

/-- One step of the accumulator: what `setWatsonResponse` leaves in the
draft after one `Message` event with content `m` arrives on draft `prev`. -/
def onMessageStep (prev m : List Char) : List Char :=
  match classifyMessage m with
  | .finalChunk => m
  | .discardChunk => prev
  | .textChunk => appendIncremental prev m

/-! ### Report Normalizer — `parseReport`, `ScoreCard.jsx` -/

/-- Split around the leftmost occurrence of `pat`: the part before it and
the part after it. -/
def breakOn (pat : List Char) : List Char → Option (List Char × List Char)
  | [] => if pat.isPrefixOf ([] : List Char) then some ([], []) else none
  | c :: cs =>
    if pat.isPrefixOf (c :: cs) then some ([], (c :: cs).drop pat.length)
    else (breakOn pat cs).map fun (a, b) => (c :: a, b)

/-- The lazy fenced-block regex of `ScoreCard.jsx` line 65: the capture of
the leftmost occurrence of the opening fence up to the earliest closing
fence after it (laziness makes the earliest close the match). -/
def fenceMatch (s : List Char) : Option (List Char) := do
  let (_, rest) ← breakOn (chars "```json\n") s
  let (inner, _) ← breakOn (chars "\n```") rest
  pure inner

/-- Consume a literal case-insensitively (`lit` given lowercase), as the
`/i` regex flag does. -/
def matchCI (lit : List Char) (s : List Char) : Option (List Char) :=
  match lit, s with
  | [], _ => some s
  | _ :: _, [] => none
  | l :: ls, c :: cs => if c.toLower = l then matchCI ls cs else none

/-- Leftmost-match search: try the pattern at every position, left to
right, as an unanchored `String.prototype.match` does. -/
def scanL (f : List Char → Option α) : List Char → Option α
  | [] => f []
  | s@(_ :: rest) =>
    match f s with
    | some a => some a
    | none => scanL f rest

/-- `\*?\*?` before a character the star cannot satisfy: greedily consume
up to two stars (giving one back can never help when the next pattern atom
rejects `*`). -/
def dropStars2 : List Char → List Char
  | '*' :: '*' :: r => r
  | '*' :: r => r
  | r => r

/-- `\s*` then a nonempty greedy capture of `cls`-characters, with the
regex backtracking discipline: prefer the longest whitespace run, giving
back trailing whitespace characters (latest first) when the character
after the run cannot start the capture.  Returns the capture and the rest
after it. -/
def backtrackWs (cls : Char → Bool) (m r : List Char) : Option (List Char × List Char) :=
  match m with
  | [] => none
  | c :: m' =>
    match backtrackWs cls m' r with
    | some res => some res
    | none =>
      if cls c then some ((c :: (m' ++ r)).takeWhile cls, (c :: (m' ++ r)).dropWhile cls)
      else none

/-- See `backtrackWs`: the combined `\s*(cls+)` step. -/
def wsCls (cls : Char → Bool) (s : List Char) : Option (List Char × List Char) :=
  let m := s.takeWhile jsWs
  let r := s.dropWhile jsWs
  match r with
  | c :: _ =>
    if cls c then some (r.takeWhile cls, r.dropWhile cls) else backtrackWs cls m r
  | [] => backtrackWs cls m r

/-- `/Overall Grade:\s*\*?\*?(\d+(?:\.\d+)?)\%/i` at one position; the
capture goes through `parseFloat`. -/
def overallGradeAt (s : List Char) : Option JNum := do
  let s1 ← matchCI (chars "overall grade:") s
  let s3 := dropStars2 (s1.dropWhile jsWs)
  let (d1, s4) := takeDigitRun s3
  if d1.isEmpty then none
  else
    match s4 with
    | '.' :: s5 =>
      let (d2, s6) := takeDigitRun s5
      if d2.isEmpty then none
      else
        match s6 with
        | '%' :: _ => some (JNum.norm (digitsToNat (d1 ++ d2) : Int) d2.length)
        | _ => none
    | '%' :: _ => some ⟨(digitsToNat d1 : Int), 0⟩
    | _ => none

/-- `/<label>:\s*\*?\*?(\d+)\/100/i` at one position; the capture goes
through `parseInt`. -/
def scoreAt (label : List Char) (s : List Char) : Option Nat := do
  let s1 ← matchCI label s
  let s2 := dropStars2 (s1.dropWhile jsWs)
  let (d, s3) := takeDigitRun s2
  if d.isEmpty then none
  else
    match s3 with
    | '/' :: '1' :: '0' :: '0' :: _ => some (digitsToNat d)
    | _ => none

/-- `\s*\*?\*?\$?([\d,]+)` after a money label; the capture has its commas
stripped and goes through `parseInt` (`NaN` when nothing remains). -/
def moneyAmount (s : List Char) : Option Json :=
  let s2 := dropStars2 (s.dropWhile jsWs)
  let s3 := match s2 with
    | '$' :: r => r
    | r => r
  let cap := s3.takeWhile fun c => c.isDigit || c = ','
  if cap.isEmpty then none
  else
    let ds := cap.filter fun c => c ≠ ','
    some (if ds.isEmpty then Json.nan else Json.num ⟨(digitsToNat ds : Int), 0⟩)

/-- `/City Market Value:\s*\*?\*?\$?([\d,]+)/i` at one position. -/
def cityMarketAt (s : List Char) : Option Json := do
  let s1 ← matchCI (chars "city market value:") s
  moneyAmount s1

/-- `/(?:Est\.|Estimated) Annual Tax:\s*\*?\*?\$?([\d,]+)/i` at one
position (the alternation tried left to right). -/
def annualTaxAt (s : List Char) : Option Json := do
  let s1 ←
    match matchCI (chars "est.") s with
    | some r => some r
    | none => matchCI (chars "estimated") s
  let s2 ← matchCI (chars " annual tax:") s1
  moneyAmount s2

/-- The lookahead `(?=###|\*\*Final|$)` that delimits a section. -/
def sectionStop (s : List Char) : Bool :=
  (chars "###").isPrefixOf s || (matchCI (chars "**final") s).isSome

/-- Characters up to the earliest section stop (to the end if none). -/
def takeToStop : List Char → List Char
  | [] => []
  | s@(c :: rest) => if sectionStop s then [] else c :: takeToStop rest

/-- `/<header>[\s\S]*?(?=###|\*\*Final|$)/i` at one position: the whole
match, header included, as the code uses `section[0]`. -/
def sectionAt (header : List Char) (s : List Char) : Option (List Char) := do
  let rest ← matchCI header s
  pure (s.take (s.length - rest.length) ++ takeToStop rest)

/-- The bullet markers `[-–]`. -/
def bulletChar (c : Char) : Bool := c = '-' || c = Char.ofNat 8211

/-- One `/[-–]\s*([^\n(]+)(?:\s*\(([^)]+)\))?/` match at the current
position: the two captures (second empty when the parenthesised group does
not match) and the rest after the match. -/
def bulletAt (s : List Char) : Option ((List Char × List Char) × List Char) :=
  match s with
  | [] => none
  | c :: rest =>
    if bulletChar c then
      match wsCls (fun x => x ≠ '\n' && x ≠ '(') rest with
      | none => none
      | some (cap1, r1) =>
        match r1.dropWhile jsWs with
        | '(' :: r2 =>
          let inner := r2.takeWhile fun x => x ≠ ')'
          let r3 := r2.dropWhile fun x => x ≠ ')'
          match r3, inner with
          | ')' :: r4, _ :: _ => some ((cap1, inner), r4)
          | _, _ => some ((cap1, []), r1)
        | _ => some ((cap1, []), r1)
    else none

/-- `matchAll` of the issue-bullet regex: successive non-overlapping
leftmost matches (fuelled by the input length; every match consumes at
least one character). -/
def bulletsInF : Nat → List Char → List (List Char × List Char)
  | 0, _ => []
  | _, [] => []
  | fuel + 1, s@(_ :: rest) =>
    match bulletAt s with
    | some (caps, r) => caps :: bulletsInF fuel r
    | none => bulletsInF fuel rest

/-- All issue-bullet matches in a section. -/
def bulletsIn (s : List Char) : List (List Char × List Char) := bulletsInF s.length s

/-- One `/[-–]\s*([^\n]+)/` match at the current position. -/
def riskAt (s : List Char) : Option (List Char × List Char) :=
  match s with
  | [] => none
  | c :: rest => if bulletChar c then wsCls (fun x => x ≠ '\n') rest else none

/-- `matchAll` of the risk-bullet regex. -/
def risksInF : Nat → List Char → List (List Char)
  | 0, _ => []
  | _, [] => []
  | fuel + 1, s@(_ :: rest) =>
    match riskAt s with
    | some (cap, r) => cap :: risksInF fuel r
    | none => risksInF fuel rest

/-- All risk-bullet matches in a section. -/
def risksIn (s : List Char) : List (List Char) := risksInF s.length s

/-- The continuation lines `(?:\n(?![-–\*#])[^\n]+)*` of a Scout's Note
(greedy, fuelled by the input length). -/
def scoutContLines : Nat → List Char → List Char
  | 0, _ => []
  | _, [] => []
  | fuel + 1, s =>
    match s with
    | '\n' :: c :: rest =>
      if c = '-' || c = Char.ofNat 8211 || c = '*' || c = '#' || c = '\n' then []
      else
        let line := (c :: rest).takeWhile fun x => x ≠ '\n'
        '\n' :: (line ++ scoutContLines fuel ((c :: rest).dropWhile fun x => x ≠ '\n'))
    | _ => []

/-- The Scout's Note pattern at one position (stars precede the
whitespace in this regex). -/
def scoutNoteAt (s : List Char) : Option (List Char) := do
  let s1 ← matchCI (chars "scout" ++ apos :: chars "s note:") s
  let s2 := dropStars2 s1
  let (first, r) ← wsCls (fun x => x ≠ '\n') s2
  pure (first ++ scoutContLines r.length r)

/-- The character class `[^–\-\n]` of the recommendation level capture. -/
def recClsChar (c : Char) : Bool := c ≠ Char.ofNat 8211 && c ≠ '-' && c ≠ '\n'

/-- The optional `(?:[–\-]\s*([^\n]+))?` reason group. -/
def recDashGroup (s : List Char) : Option (List Char) :=
  match s with
  | [] => none
  | c :: rest =>
    if bulletChar c then (wsCls (fun x => x ≠ '\n') rest).map (·.1) else none

/-- `/\*\*Final Recommendation:\*\*\s*\*?\*?([^–\-\n]+)(?:[–\-]\s*([^\n]+))?/i`
at one position.  After the greedy whitespace and star consumption, a
rejected capture start is rescued first by giving one star back (`*` is in
the capture class) and then by giving whitespace back. -/
def recommendAt (s : List Char) : Option (List Char × Option (List Char)) := do
  let s1 ← matchCI (chars "**final recommendation:**") s
  let m := s1.takeWhile jsWs
  let r := s1.dropWhile jsWs
  let r2 := dropStars2 r
  let capRes : Option (List Char × List Char) :=
    match r2 with
    | c :: _ =>
      if recClsChar c then some (r2.takeWhile recClsChar, r2.dropWhile recClsChar)
      else if r2.length < r.length then some (['*'], r2)
      else backtrackWs recClsChar m r
    | [] =>
      if r2.length < r.length then some (['*'], r2)
      else backtrackWs recClsChar m r
  match capRes with
  | none => none
  | some (cap1, rest) => pure (cap1, recDashGroup rest)

/-- Wrap an optional value as an object-field fragment. -/
def optF (k : List Char) (v : Option Json) : List (List Char × Json) :=
  match v with
  | some x => [(k, x)]
  | none => []

/-- One extracted 311 issue: `{type: match[1].trim(), details: match[2] || ''}`. -/
def issueObj (tv : List Char × List Char) : Json :=
  Json.obj [(chars "type", .str (jsTrim tv.1)), (chars "details", .str tv.2)]

/-- The risk filter of `ScoreCard.jsx` line 178: keep a trimmed risk line
when it is nonempty and does not start with a digit. -/
def riskKeep (r : List Char) : Bool :=
  match r with
  | [] => false
  | c :: _ => !c.isDigit

/-- `ScoreCard.jsx` lines 116-194: the markdown-fallback extraction.  The
report skeleton is built, each label regex conditionally sets its fields
(insertion order as executed in the source), and `full_text` is always set
to the whole response at the end. -/
def markdownReport (response : List Char) : Json :=
  let ovr := scanL overallGradeAt response
  let qual := (scanL (scoreAt (chars "quality score:")) response).map
    fun n => Json.num ⟨(n : Int), 0⟩
  let fin := (scanL (scoreAt (chars "financial score:")) response).map
    fun n => Json.num ⟨(n : Int), 0⟩
  let mv := scanL cityMarketAt response
  let tax := scanL annualTaxAt response
  let qSec := scanL (sectionAt (chars "### 1. building quality audit")) response
  let issues := match qSec with
    | some sec => bulletsIn sec
    | none => []
  let scout := match qSec with
    | some sec => scanL scoutNoteAt sec
    | none => none
  let fSec := scanL (sectionAt (chars "### 2. financial & tax audit")) response
  let risks := match fSec with
    | some sec => ((risksIn sec).map jsTrim).filter riskKeep
    | none => []
  let recm := scanL recommendAt response
  Json.obj
    [(chars "property", Json.obj []),
     (chars "scores", Json.obj
       (optF (chars "overall") (ovr.map Json.num) ++
        optF (chars "quality") qual ++
        optF (chars "financial") fin)),
     (chars "quality_audit", Json.obj
       ((chars "recent_issues", Json.arr (issues.map issueObj)) ::
        optF (chars "score") qual ++
        optF (chars "scouts_note") (scout.map fun t => Json.str (jsTrim t)))),
     (chars "financial_audit", Json.obj
       ((chars "risk_factors", Json.arr (risks.map Json.str)) ::
        optF (chars "score") fin ++
        optF (chars "city_market_value") mv ++
        optF (chars "annual_tax") tax)),
     (chars "recommendation", Json.obj
       (match recm with
        | some (lvl, rsn) =>
          [(chars "level", Json.str (jsTrim lvl)),
           (chars "reason", Json.str (match rsn with
             | some t => jsTrim t
             | none => []))]
        | none => [])),
     (chars "full_text", Json.str response)]

/-- `ScoreCard.jsx` lines 71-109: the bare-JSON branch inside the inner
`try`.  `Except.error` models a thrown `TypeError` (reading a property off
a `null` parse), which falls through to the markdown path. -/
def bareJsonBranch (parsed : Json) (response : List Char) : Except Unit Json := do
  let scores ← jsGetE parsed (chars "scores")
  let fallRest : Except Unit Json := do
    let prop ← jsGetE parsed (chars "property")
    if truthy prop && !truthy scores then pure Json.null
    else pure (Json.obj (objSet (spreadFields parsed) (chars "full_text") (Json.str response)))
  if truthy scores then
    let finAudit := jsGetD parsed (chars "financial_audit")
    let financialScore :=
      jsNN (jsNN (jsNN (jsGetD scores (chars "financial_score"))
                       (jsGetD scores (chars "financial")))
                 (jsOptGet finAudit (chars "score")))
           (jsOptGet finAudit (chars "financial_score"))
    let overall :=
      jsNN (jsNN (jsGetD scores (chars "overall_transparency_grade"))
                 (jsGetD scores (chars "overall_grade")))
           (jsGetD scores (chars "overall"))
    let quality :=
      jsNN (jsGetD scores (chars "quality_score")) (jsGetD scores (chars "quality"))
    let normalized := Json.obj (objSet (spreadFields parsed) (chars "scores")
      (Json.obj [(chars "overall", overall), (chars "quality", quality),
                 (chars "financial", financialScore)]))
    if !overall.isUndef || !quality.isUndef || !financialScore.isUndef then
      pure normalized
    else fallRest
  else fallRest

/-- `ScoreCard.jsx` lines 56-199, `parseReport`: empty input is `null`; a
fenced JSON block is parsed and returned raw (a fenced parse failure
throws to the outer catch, which returns the raw-text fallback); otherwise
bare JSON is tried (a thrown property read falling through to markdown);
otherwise the markdown extraction runs.  Total: every input returns a
value, never an error. -/
def parseReport (response : List Char) : Json :=
  if response.isEmpty then Json.null
  else
    match fenceMatch response with
    | some inner =>
      match jsonParse inner with
      | some v => v
      | none => Json.obj [(chars "full_text", Json.str response)]
    | none =>
      match jsonParse response with
      | some parsed =>
        match bareJsonBranch parsed response with
        | .ok r => r
        | .error _ => markdownReport response
      | none => markdownReport response

/-! ### Cancellation wiring — `api.js` lines 75-169, `PropertyDetail.jsx`
lines 21-101 -/

/-- Externally visible actions on the streaming transport. -/
inductive StreamAction where
  | streamCreated
  | abortSignalled
deriving DecidableEq

/-- `api.js` lines 76-163: calling `streamWatsonAnalysis` immediately
starts the fetch/read loop. -/
def streamWatsonAnalysisStart : List StreamAction := [.streamCreated]

/-- `api.js` lines 166-168: the returned cleanup function calls
`controller.abort()`. -/
def streamWatsonAnalysisCleanup : List StreamAction := [.abortSignalled]

/-- `PropertyDetail.jsx` lines 44-101: `triggerWatsonAnalysis` calls
`streamWatsonAnalysis` and returns its cleanup function to its caller. -/
def triggerWatsonAnalysisRun : List StreamAction × List StreamAction :=
  (streamWatsonAnalysisStart, streamWatsonAnalysisCleanup)

/-- `PropertyDetail.jsx` lines 25-42: `fetchProperty` invokes
`triggerWatsonAnalysis(data.address)` as a statement — the returned
cleanup function is discarded. -/
def fetchPropertyRun : List StreamAction := triggerWatsonAnalysisRun.1

/-- `PropertyDetail.jsx` lines 21-23: the effect body runs
`fetchProperty();` and returns no cleanup to React (the async call's
promise is not a cleanup function), so React has nothing to invoke on
unmount or on an `id` change. -/
def propertyViewEffectCleanup : Option (List StreamAction) := none

/-- The transport-action trace of `n` effect runs (mount, `id` changes):
before each re-run React invokes the previous run's cleanup — here none. -/
def propertyViewTrace : Nat → List StreamAction
  | 0 => []
  | n + 1 =>
    fetchPropertyRun ++
      (match propertyViewEffectCleanup with
       | some c => c
       | none => []) ++
      propertyViewTrace n

/-! ### Lemmas about the line-splitting discipline -/

/-- Splitting a newline-free string completes no line: everything stays
in the buffer. -/
theorem jsSplitPop_noNl {s : List Char} (h : '\n' ∉ s) : jsSplitPop s = ([], s) := by
  induction s with
  | nil => rfl
  | cons c cs ih =>
    have hc : ¬ c = '\n' := fun he => h (he ▸ List.mem_cons_self c cs)
    have hcs : '\n' ∉ cs := fun hm => h (List.mem_cons_of_mem c hm)
    simp [jsSplitPop, ih hcs, hc]

/-- The retained buffer never contains a newline. -/
theorem noNl_jsSplitPop_snd (s : List Char) : '\n' ∉ (jsSplitPop s).2 := by
  induction s with
  | nil => simp [jsSplitPop]
  | cons c cs ih =>
    rcases hs : jsSplitPop cs with ⟨ls, r⟩
    rw [hs] at ih
    by_cases hc : c = '\n'
    · simp only [jsSplitPop, hs, hc, if_pos rfl]
      exact ih
    · rcases ls with _ | ⟨l, ls'⟩
      · simp only [jsSplitPop, hs, if_neg hc]
        simp only [List.mem_cons, not_or]
        exact ⟨fun h => hc h.symm, ih⟩
      · simp only [jsSplitPop, hs, if_neg hc]
        exact ih

/-- The buffer-and-append discipline composes: splitting `a ++ b` in one
go equals splitting `a`, carrying its leftover into `b`. -/
theorem jsSplitPop_append (a b : List Char) :
    jsSplitPop (a ++ b) =
      ((jsSplitPop a).1 ++ (jsSplitPop ((jsSplitPop a).2 ++ b)).1,
       (jsSplitPop ((jsSplitPop a).2 ++ b)).2) := by
  induction a with
  | nil => simp [jsSplitPop]
  | cons c cs ih =>
    rcases hs : jsSplitPop cs with ⟨ls, r⟩
    rcases hrb : jsSplitPop (r ++ b) with ⟨ls2, r2⟩
    rw [hs, hrb] at ih
    simp only at ih
    by_cases hc : c = '\n'
    · subst hc
      simp [jsSplitPop, ih, hs, hrb]
    · rcases ls with _ | ⟨l, ls'⟩
      · rcases ls2 with _ | ⟨m, ms⟩
        · simp [jsSplitPop, ih, hs, hrb, hc]
        · simp [jsSplitPop, ih, hs, hrb, hc]
      · simp [jsSplitPop, ih, hs, hrb, hc]

/-- The read loop from a newline-free buffer produces exactly the events
of the complete lines of the concatenated stream. -/
theorem decodeFrom_flatten (frags : List (List Char)) :
    ∀ (b : List Char), '\n' ∉ b →
      decodeFrom b frags = ((jsSplitPop (b ++ frags.flatten)).1).flatMap lineEvents := by
  induction frags with
  | nil =>
    intro b hb
    simp [decodeFrom, jsSplitPop_noNl hb]
  | cons c cs ih =>
    intro b hb
    rcases hbc : jsSplitPop (b ++ c) with ⟨ls1, r1⟩
    have h2 := noNl_jsSplitPop_snd (b ++ c)
    rw [hbc] at h2
    have happ := jsSplitPop_append (b ++ c) cs.flatten
    rw [hbc] at happ
    simp only at happ
    simp only [decodeFrom, processChunk, hbc, ih _ h2, List.flatten_cons,
      ← List.append_assoc, happ, List.flatMap_append]

/-- **C1.** For every logical SSE character stream and every way of
splitting it into network read fragments (at any offsets, including
splitting a line across two reads), the Stream Decoder of
`streamWatsonAnalysis` yields the identical ordered sequence of events as
it yields for the unfragmented stream. -/
theorem decoder_fragmentation_invariant (frags : List (List Char)) :
    decodeFragments frags = decodeFragments [frags.flatten] := by
  have h1 := decodeFrom_flatten frags [] (by simp)
  have h2 := decodeFrom_flatten [frags.flatten] [] (by simp)
  simp only [decodeFragments, h1, h2, List.flatten_cons, List.flatten_nil,
    List.append_nil, List.nil_append]

/-- A one-fragment stream decodes to the events of its complete lines. -/
theorem decodeFragments_single (x : List Char) :
    decodeFragments [x] = ((jsSplitPop x).1).flatMap lineEvents := by
  have h := decodeFrom_flatten [x] [] (by simp)
  simpa [decodeFragments] using h

/-- Splitting a stream beginning with one newline-terminated line yields
that line and the split of the remainder. -/
theorem jsSplitPop_line (line rest : List Char) (h : '\n' ∉ line) :
    jsSplitPop (line ++ '\n' :: rest) =
      (line :: (jsSplitPop rest).1, (jsSplitPop rest).2) := by
  induction line with
  | nil =>
    rcases hr : jsSplitPop rest with ⟨ls, r⟩
    simp [jsSplitPop, hr]
  | cons c cs ih =>
    have hc : ¬ c = '\n' := fun he => h (he ▸ List.mem_cons_self c cs)
    have hcs : '\n' ∉ cs := fun hm => h (List.mem_cons_of_mem c hm)
    simp [jsSplitPop, ih hcs, hc]

/-- A `data: ` line whose trimmed payload fails `JSON.parse` produces no
event (the `catch` only logs). -/
theorem lineEvents_dropped (bad : List Char)
    (hpre : (chars "data: ").isPrefixOf bad = true)
    (hparse : jsonParse (jsTrim (bad.drop 6)) = none) :
    lineEvents bad = [] := by
  by_cases he : (jsTrim (bad.drop 6)).isEmpty
  · simp [lineEvents, hpre, he]
  · simp [lineEvents, hpre, he, hparse]

/-- **C7.** A `data: ` line whose payload fails JSON parsing is dropped
without terminating the stream and without emitting an error event: the
decoded events are exactly those of the stream without that line, so every
subsequent well-formed line is still processed into its event. -/
theorem malformed_line_skipped (bad rest : List Char)
    (hnl : '\n' ∉ bad)
    (hpre : (chars "data: ").isPrefixOf bad = true)
    (hparse : jsonParse (jsTrim (bad.drop 6)) = none) :
    decodeFragments [bad ++ '\n' :: rest] = decodeFragments [rest] := by
  have hline := jsSplitPop_line bad rest hnl
  simp only [decodeFragments_single, hline, List.flatMap_cons,
    lineEvents_dropped bad hpre hparse, List.nil_append]

/-- Witness for C7 at the spec's own example: the malformed line
`data: {not json` is skipped and a following valid status line still
decodes. -/
theorem malformed_line_skipped_witness :
    decodeFragments
        [chars "data: \x7bnot json" ++ '\n' ::
          chars "data: \x7b\"type\":\"status\",\"status\":\"ok\"\x7d\n"] =
      decodeFragments [chars "data: \x7b\"type\":\"status\",\"status\":\"ok\"\x7d\n"] :=
  malformed_line_skipped _ _ (by decide) (by decide) rfl

/-- A concrete `done`-event line. -/
def doneLineEx : List Char := chars "data: \x7b\"type\":\"done\",\"thread_id\":\"abc\"\x7d"

/-- **C5, counterexample.** The claim says no event follows a `done`
event.  On this concrete stream the decoder emits a `status` event after
the `done` event: the dispatch loop has no terminal-sentinel check. -/
theorem done_event_not_terminal :
    decodeFragments
        [chars "data: \x7b\"type\":\"done\",\"thread_id\":\"abc\"\x7d\ndata: \x7b\"type\":\"status\",\"status\":\"s\"\x7d\n"] =
      [SEvent.done (Json.str (chars "abc")), SEvent.status (Json.str (chars "s"))] := rfl

/-- **C5, amended.** The decoder imposes no terminal sentinel: a `done`
event does not stop decoding — the events of any following lines are still
emitted after it — and the sentinel line `data: [DONE]` itself fails JSON
parsing and is dropped without emitting any event.  Decoding stops only
when the underlying byte stream ends. -/
theorem decoder_continues_after_done :
    (∀ rest : List Char,
      decodeFragments [doneLineEx ++ '\n' :: rest] =
        SEvent.done (Json.str (chars "abc")) :: decodeFragments [rest]) ∧
    lineEvents (chars "data: [DONE]") = [] := by
  constructor
  · intro rest
    have hnl : '\n' ∉ doneLineEx := by decide
    have hline := jsSplitPop_line doneLineEx rest hnl
    have hde : lineEvents doneLineEx = [SEvent.done (Json.str (chars "abc"))] := rfl
    simp only [decodeFragments_single, hline, List.flatMap_cons, hde,
      List.singleton_append]
  · rfl

/-- A list is a prefix of itself extended. -/
theorem isPrefixOf_append_self (p x : List Char) : p.isPrefixOf (p ++ x) = true := by
  induction p with
  | nil => simp
  | cons c cs ih => simp [List.isPrefixOf, ih]

/-- **C10.** For a message event whose content string parses as JSON, the
Stream Decoder delivers not the original content but the parsed object
re-serialised with 2-space pretty-printing (`JSON.stringify(obj, null,
2)`); content that does not parse as JSON is delivered verbatim. -/
theorem message_content_pretty_printed (p c : List Char) (v : Json)
    (hnl : '\n' ∉ p)
    (htrim : jsTrim p = p)
    (hp : jsonParse p = some v)
    (hty : jsGetE v (chars "type") = .ok (Json.str (chars "message")))
    (hct : jsGetE v (chars "content") = .ok (Json.str c)) :
    decodeFragments [chars "data: " ++ p ++ ['\n']] =
      [SEvent.message
        (match jsonParse c with
         | some w => Json.str (stringify2 w)
         | none => Json.str c)] := by
  have hnl2 : '\n' ∉ chars "data: " ++ p := by
    simp only [List.mem_append, not_or]
    exact ⟨by decide, hnl⟩
  have hline := jsSplitPop_line (chars "data: " ++ p) [] hnl2
  have hstream : chars "data: " ++ p ++ ['\n'] = (chars "data: " ++ p) ++ '\n' :: [] := by
    simp
  rw [hstream, decodeFragments_single, hline]
  simp only [jsSplitPop, List.flatMap_cons, List.flatMap_nil, List.append_nil]
  have hpe : (chars "data: ").isPrefixOf (chars "data: " ++ p) = true :=
    isPrefixOf_append_self _ _
  have hdrop : (chars "data: " ++ p).drop 6 = p := by
    have h6 : (6 : Nat) = (chars "data: ").length := rfl
    rw [h6, List.drop_left]
  have hne : (jsTrim ((chars "data: " ++ p).drop 6)).isEmpty = false := by
    rw [hdrop, htrim]
    cases p with
    | nil => simp [show jsonParse ([] : List Char) = none from rfl] at hp
    | cons _ _ => rfl
  have e1 : (Json.str (chars "message")).strEq (chars "connected") = false := by decide
  have e2 : (Json.str (chars "message")).strEq (chars "status") = false := by decide
  have e3 : (Json.str (chars "message")).strEq (chars "message") = true := by decide
  have hpne : p.isEmpty = false := by
    cases p with
    | nil => simp [show jsonParse ([] : List Char) = none from rfl] at hp
    | cons _ _ => rfl
  simp only [lineEvents, hpe, if_true, hdrop, htrim, hne, Bool.false_eq_true,
    if_false, hp, hty, e1, e2, e3, jsGetD, hct, contentTransform, jsToStr, hpne]

/-- Witness for C10: a concrete message line whose JSON content is
delivered pretty-printed (and hence not verbatim). -/
theorem message_content_pretty_printed_witness :
    decodeFragments
        [chars "data: " ++ chars "\x7b\"type\":\"message\",\"content\":\"\x7b\\\"a\\\":1\x7d\"\x7d" ++ ['\n']] =
      [SEvent.message (Json.str (chars "\x7b\n  \"a\": 1\n\x7d"))] := by
  have h := message_content_pretty_printed
    (chars "\x7b\"type\":\"message\",\"content\":\"\x7b\\\"a\\\":1\x7d\"\x7d")
    (chars "\x7b\"a\":1\x7d")
    (Json.obj [(chars "type", Json.str (chars "message")),
               (chars "content", Json.str (chars "\x7b\"a\":1\x7d"))])
    (by decide) rfl rfl rfl rfl
  rw [h]
  rfl

/-- Every list is a prefix of itself. -/
theorem isPrefixOf_self (m : List Char) : m.isPrefixOf m = true := by
  induction m with
  | nil => simp
  | cons c cs ih => simp [List.isPrefixOf, ih]

/-- A just-appended suffix is a substring. -/
theorem isSubstr_append_right (m p : List Char) : isSubstr m (p ++ m) = true := by
  induction p with
  | nil =>
    cases m with
    | nil => rfl
    | cons c cs => simp [isSubstr, isPrefixOf_self]
  | cons c cs ih => simp [isSubstr, ih]

/-- **C6.** `appendIncremental` is idempotent under exact-substring
duplicates: a message already occurring as a substring of the draft leaves
it unchanged, otherwise it is concatenated — and in either case a repeat
of the same message is then a no-op. -/
theorem append_incremental_idempotent (p m : List Char) :
    (isSubstr m p = true → appendIncremental p m = p) ∧
    (isSubstr m p = false → appendIncremental p m = p ++ m) ∧
    appendIncremental (appendIncremental p m) m = appendIncremental p m := by
  refine ⟨fun h => by simp [appendIncremental, h],
          fun h => by simp [appendIncremental, h], ?_⟩
  by_cases h : isSubstr m p = true
  · simp [appendIncremental, h]
  · simp only [Bool.not_eq_true] at h
    simp [appendIncremental, h, isSubstr_append_right]

/-- Witness for C6 on concrete drafts: the duplicate case and the fresh
case of `appendIncremental`. -/
theorem append_incremental_idempotent_witness :
    appendIncremental (chars "hello world") (chars "lo wo") = chars "hello world" ∧
    appendIncremental (chars "ab") (chars "c") = chars "abc" :=
  ⟨(append_incremental_idempotent _ _).1 (by decide),
   (append_incremental_idempotent _ _).2.1 (by decide)⟩

/-- A concrete Final chunk: complete JSON with an `overall_grade`. -/
def finalMsgEx : List Char := chars "\x7b\"scores\":\x7b\"overall_grade\":80\x7d\x7d"

/-- **C2, counterexample.** After the Final chunk has replaced the draft,
a subsequent incremental Message ("hello") still changes the draft state:
there is no `finalized` flag in the code, so finalization is not a
one-way latch. -/
theorem finalization_not_latched :
    onMessageStep (onMessageStep [] finalMsgEx) (chars "hello") ≠
      onMessageStep [] finalMsgEx := by
  intro h
  have h1 : onMessageStep [] finalMsgEx = finalMsgEx := rfl
  have h2 : onMessageStep finalMsgEx (chars "hello") = finalMsgEx ++ chars "hello" := rfl
  rw [h1, h2] at h
  exact absurd (congrArg List.length h) (by decide)

/-- **C2, amended.** There is no finalization latch: after a Final chunk
replaces the draft, later Message events still mutate it (another Final
replaces it again, and fresh incremental text is appended —
`finalization_not_latched`).  What does hold for every draft state is
that a Partial-classified chunk never alters the draft. -/
theorem partial_chunk_is_noop (d m : List Char)
    (h : classifyMessage m = .discardChunk) : onMessageStep d m = d := by
  simp [onMessageStep, h]

/-- Witness for the amended C2: a partial scores-less property chunk
arriving after the final report leaves the draft unchanged. -/
theorem partial_chunk_is_noop_witness :
    onMessageStep finalMsgEx (chars "\x7b\"property\":\x7b\x7d\x7d") = finalMsgEx :=
  partial_chunk_is_noop _ _ rfl

/-- Whether the value is JSON `null`. -/
def Json.isNull : Json → Bool
  | .null => true
  | _ => false

/-- Modelled from the spec (§3, §4.2): the spec's Final test — the content
parses as JSON and the object has a `scores` field in which some
overall-grade alias key (`overall_transparency_grade`, `overall_grade`,
`overall`, in priority order) is present and non-null.  Used only to state
the counterexample against the code's classifier. -/
def specClassifierFinal (m : List Char) : Bool :=
  match jsonParse m with
  | none => false
  | some v =>
    match jsGetE v (chars "scores") with
    | .error _ => false
    | .ok scores =>
      truthy scores &&
        ([chars "overall_transparency_grade", chars "overall_grade", chars "overall"].any
          fun k => !(jsGetD scores k).isUndef && !(jsGetD scores k).isNull)

/-- **C3, counterexample.** On `{"scores":{"overall":80}}` the spec's
classifier says Final (alias `overall` present and non-null) but the code
classifies it Partial and discards it: the code checks only
`overall_transparency_grade` and `overall_grade`, never `overall`. -/
theorem overall_alias_not_consulted :
    specClassifierFinal (chars "\x7b\"scores\":\x7b\"overall\":80\x7d\x7d") = true ∧
    classifyMessage (chars "\x7b\"scores\":\x7b\"overall\":80\x7d\x7d") =
      MsgClass.discardChunk := by
  constructor <;> rfl

/-- **C3, amended.** The classifier marks content Final exactly when it
parses as JSON to a value whose `scores` read succeeds with a truthy
result having `overall_transparency_grade` or `overall_grade` defined (a
JSON `null` value counts as present); the bare `overall` alias is not
consulted.  Only Final content replaces the draft; non-Final content
leaves it unchanged or appends to it. -/
theorem classifier_final_characterisation (m : List Char) :
    (classifyMessage m = .finalChunk ↔
      ∃ v scores, jsonParse m = some v ∧ jsGetE v (chars "scores") = .ok scores ∧
        truthy scores = true ∧
        ((jsGetD scores (chars "overall_transparency_grade")).isUndef = false ∨
         (jsGetD scores (chars "overall_grade")).isUndef = false)) ∧
    (classifyMessage m = .finalChunk → ∀ prev, onMessageStep prev m = m) ∧
    (classifyMessage m ≠ .finalChunk → ∀ prev,
      onMessageStep prev m = prev ∨ onMessageStep prev m = prev ++ m) := by
  refine ⟨⟨?_, ?_⟩, fun h prev => by simp [onMessageStep, h], ?_⟩
  · intro h
    unfold classifyMessage at h
    rcases hp : jsonParse m with _ | v <;> simp only [hp] at h
    · exact absurd h (by simp)
    · rcases hg : jsGetE v (chars "scores") with e | scores <;> simp only [hg] at h
      · exact absurd h (by simp)
      · split at h
        · next hcond =>
            simp only [Bool.and_eq_true, Bool.or_eq_true, Bool.not_eq_true'] at hcond
            exact ⟨v, scores, rfl, hg, hcond.1, hcond.2⟩
        · next hcond =>
            rcases hq : jsGetE v (chars "property") with e | prop <;> simp only [hq] at h
            · exact absurd h (by simp)
            · split at h <;> exact absurd h (by simp)
  · rintro ⟨v, scores, hp, hg, ht, hd⟩
    unfold classifyMessage
    simp only [hp, hg]
    have hcond :
        (truthy scores &&
          (!(jsGetD scores (chars "overall_transparency_grade")).isUndef ||
           !(jsGetD scores (chars "overall_grade")).isUndef)) = true := by
      rcases hd with hh | hh <;> simp [ht, hh]
    rw [if_pos hcond]
  · intro h prev
    rcases hc : classifyMessage m with _ | _ | _
    · exact absurd hc h
    · left
      simp [onMessageStep, hc]
    · by_cases hs : isSubstr m prev = true
      · left
        simp [onMessageStep, hc, appendIncremental, hs]
      · simp only [Bool.not_eq_true] at hs
        right
        simp [onMessageStep, hc, appendIncremental, hs]

/-- Witness for the amended C3 at a concrete Final chunk. -/
theorem classifier_final_characterisation_witness :
    classifyMessage finalMsgEx = MsgClass.finalChunk ∧
    onMessageStep (chars "d") finalMsgEx = finalMsgEx := by
  have h := classifier_final_characterisation finalMsgEx
  have hf : classifyMessage finalMsgEx = .finalChunk :=
    h.1.mpr
      ⟨Json.obj [(chars "scores", Json.obj [(chars "overall_grade", Json.num ⟨80, 0⟩)])],
       Json.obj [(chars "overall_grade", Json.num ⟨80, 0⟩)], rfl, rfl, rfl, Or.inr rfl⟩
  exact ⟨hf, h.2.1 hf (chars "d")⟩

/-- A prefix of `xs ++ ys` no longer than `xs` is a prefix of `xs`. -/
theorem isPrefixOf_append_of_le (p xs ys : List Char)
    (h : p.isPrefixOf (xs ++ ys) = true) (hl : p.length ≤ xs.length) :
    p.isPrefixOf xs = true := by
  induction p generalizing xs with
  | nil => simp
  | cons a as ih =>
    cases xs with
    | nil => simp at hl
    | cons x xs' =>
      simp only [List.cons_append, List.isPrefixOf, Bool.and_eq_true] at h ⊢
      exact ⟨h.1, ih xs' h.2 (by simpa using hl)⟩

/-- A cons-pattern fails as a prefix when its tail fails on the tail. -/
theorem isPrefixOf_cons_false (p c : Char) (ps rest : List Char)
    (h : ps.isPrefixOf rest = false) : (p :: ps).isPrefixOf (c :: rest) = false := by
  simp only [List.isPrefixOf, h, Bool.and_false]

/-- Searching for a nonempty pattern that the text starts with finds it at
the front. -/
theorem breakOn_self (c : Char) (cs rest : List Char) :
    breakOn (c :: cs) ((c :: cs) ++ rest) = some ([], rest) := by
  have hp : (c :: cs).isPrefixOf ((c :: cs) ++ rest) = true := isPrefixOf_append_self _ _
  have hdrop : ((c :: cs) ++ rest).drop (c :: cs).length = rest := List.drop_left _ _
  simp only [List.cons_append] at hp hdrop
  simp only [breakOn, List.append_eq, hp, if_true, hdrop]

/-- The closing fence appended to a text that does not contain it is found
exactly at the seam: the four-character pattern (newline then three
backticks) cannot start inside the text and finish in the appended copy,
because its tail characters are backticks while its head is a newline. -/
theorem breakOn_close (J : List Char) (h : breakOn (chars "\n```") J = none) :
    breakOn (chars "\n```") (J ++ chars "\n```") = some (J, []) := by
  induction J with
  | nil => rfl
  | cons c cs ih =>
    have hpre : (chars "\n```").isPrefixOf (c :: cs) = false := by
      by_cases hb : (chars "\n```").isPrefixOf (c :: cs) = true
      · simp [breakOn, hb] at h
      · exact Bool.eq_false_iff.mpr hb
    have hcs : breakOn (chars "\n```") cs = none := by
      simp only [breakOn, hpre, Bool.false_eq_true, if_false, Option.map_eq_none'] at h
      exact h
    have hsplit : chars "\n```" = '\n' :: chars "```" := rfl
    have hnop : (chars "\n```").isPrefixOf (c :: (cs ++ chars "\n```")) = false := by
      rcases cs with _ | ⟨a, _ | ⟨b, _ | ⟨d, ds⟩⟩⟩
      · rw [hsplit]
        exact isPrefixOf_cons_false _ _ _ _ (by decide)
      · rw [hsplit]
        exact isPrefixOf_cons_false _ _ _ _
          (isPrefixOf_cons_false _ _ _ _ (by decide))
      · rw [hsplit]
        exact isPrefixOf_cons_false _ _ _ _
          (isPrefixOf_cons_false _ _ _ _ (isPrefixOf_cons_false _ _ _ _ (by decide)))
      · apply Bool.eq_false_iff.mpr
        intro hp
        have hlen : (chars "\n```").length ≤ (c :: a :: b :: d :: ds).length := by
          have h4 : (chars "\n```").length = 4 := rfl
          simp only [h4, List.length_cons]
          omega
        have h2 := isPrefixOf_append_of_le (chars "\n```") (c :: a :: b :: d :: ds)
          (chars "\n```") (by simpa using hp) hlen
        rw [hpre] at h2
        exact absurd h2 (by simp)
    have hgoal : breakOn (chars "\n```") (c :: (cs ++ chars "\n```")) =
        some (c :: cs, []) := by
      simp only [breakOn, hnop, Bool.false_eq_true, if_false, ih hcs, Option.map_some']
    simpa using hgoal

/-- **C4, counterexample.** The claim says a fenced and an unfenced copy
of the same JSON document normalize identically.  For a document with a
`scores.overall_transparency_grade`, the fenced path returns the raw
parse (key kept) while the bare path normalizes it to `scores.overall`,
so the two results differ. -/
theorem fenced_vs_bare_differ :
    parseReport
        (chars "```json\n\x7b\"scores\":\x7b\"overall_transparency_grade\":72\x7d\x7d\n```") ≠
      parseReport (chars "\x7b\"scores\":\x7b\"overall_transparency_grade\":72\x7d\x7d") := by
  intro h
  exact absurd (congrArg stringify2 h) (by decide)

/-- **C4, amended.** `parseReport` on a JSON document inside a
markdown fence tagged `json` returns exactly the parsed document, with no
score normalization and no `full_text` added — whereas the bare path
normalizes; round-trip equality with the bare result therefore fails in
general (see `fenced_vs_bare_differ`).  (The fence must actually delimit
the document: `J` may not contain the closing-fence sequence.) -/
theorem fenced_json_returned_raw (J : List Char) (v : Json)
    (hnf : breakOn (chars "\n```") J = none)
    (hp : jsonParse J = some v) :
    parseReport (chars "```json\n" ++ J ++ chars "\n```") = v := by
  have hsplit : chars "```json\n" = Char.ofNat 96 :: chars "``json\n" := rfl
  have hopen : breakOn (chars "```json\n")
      (chars "```json\n" ++ (J ++ chars "\n```")) = some ([], J ++ chars "\n```") := by
    have hself := breakOn_self (Char.ofNat 96) (chars "``json\n") (J ++ chars "\n```")
    rw [← hsplit] at hself
    exact hself
  have hclose := breakOn_close J hnf
  have hassoc : chars "```json\n" ++ J ++ chars "\n```" =
      chars "```json\n" ++ (J ++ chars "\n```") := List.append_assoc _ _ _
  have hempty : (chars "```json\n" ++ J ++ chars "\n```").isEmpty = false := by
    rw [hassoc, hsplit]
    rfl
  rw [hassoc] at hempty
  simp only [parseReport, hempty, Bool.false_eq_true, if_false, fenceMatch, hassoc,
    hopen, Option.bind_eq_bind, Option.some_bind, hclose, Option.pure_def, hp]

/-- Witness for the amended C4: a concrete fenced document comes back as
its raw parse. -/
theorem fenced_json_returned_raw_witness :
    parseReport (chars "```json\n" ++ chars "\x7b\"a\":1\x7d" ++ chars "\n```") =
      Json.obj [(chars "a", Json.num ⟨1, 0⟩)] :=
  fenced_json_returned_raw _ _ rfl rfl

/-- Looking a key up after setting it yields the set value. -/
theorem objLookup_objSet (fs : List (List Char × Json)) (k : List Char) (v : Json) :
    objLookup (objSet fs k v) k = v := by
  induction fs with
  | nil => simp [objSet, objLookup]
  | cons kv rest ih =>
    rcases kv with ⟨k1, v1⟩
    by_cases hk : k1 = k
    · simp [objSet, objLookup, hk]
    · simp [objSet, objLookup, hk, ih]

/-- A receiver on which one property read succeeds is non-nullish, so
every property read on it succeeds. -/
theorem jsGetE_ok_any (v : Json) (k : List Char) (x : Json)
    (h : jsGetE v k = .ok x) (k2 : List Char) : ∃ y, jsGetE v k2 = .ok y := by
  cases v <;> simp [jsGetE] at h ⊢

/-- The markdown-path report always carries the whole response as
`full_text` (`ScoreCard.jsx` line 192), whatever the label regexes do. -/
theorem markdown_full_text (r : List Char) :
    jsGetD (markdownReport r) (chars "full_text") = Json.str r := by
  simp only [markdownReport, jsGetD, jsGetE, objLookup]
  rw [if_neg (show ¬ chars "property" = chars "full_text" by decide),
      if_neg (show ¬ chars "scores" = chars "full_text" by decide),
      if_neg (show ¬ chars "quality_audit" = chars "full_text" by decide),
      if_neg (show ¬ chars "financial_audit" = chars "full_text" by decide),
      if_neg (show ¬ chars "recommendation" = chars "full_text" by decide)]
  simp

/-- The condition under which the bare-JSON branch returns a normalized
report (`ScoreCard.jsx` line 98): a truthy `scores` with at least one of
the alias-resolved overall/quality/financial values defined.  Its negation
is "no score field can be resolved" on the bare path. -/
def bareScoresResolved (parsed : Json) : Bool :=
  match jsGetE parsed (chars "scores") with
  | .error _ => false
  | .ok scores =>
    truthy scores &&
      (let finAudit := jsGetD parsed (chars "financial_audit")
       let financialScore :=
         jsNN (jsNN (jsNN (jsGetD scores (chars "financial_score"))
                          (jsGetD scores (chars "financial")))
                    (jsOptGet finAudit (chars "score")))
              (jsOptGet finAudit (chars "financial_score"))
       let overall :=
         jsNN (jsNN (jsGetD scores (chars "overall_transparency_grade"))
                    (jsGetD scores (chars "overall_grade")))
              (jsGetD scores (chars "overall"))
       let quality :=
         jsNN (jsGetD scores (chars "quality_score")) (jsGetD scores (chars "quality"))
       !overall.isUndef || !quality.isUndef || !financialScore.isUndef)

/-- The condition under which the bare-JSON branch returns `null`
(`ScoreCard.jsx` line 104): a truthy `property` with a falsy `scores`. -/
def barePropertyOnly (parsed : Json) : Bool :=
  match jsGetE parsed (chars "scores"), jsGetE parsed (chars "property") with
  | .ok scores, .ok prop => truthy prop && !truthy scores
  | _, _ => false

/-- When no score resolves and the `property`/no-`scores` early return
does not fire, the bare-JSON branch returns the parse spread together
with `full_text` set to the whole response. -/
theorem bareJsonBranch_fallback (parsed : Json) (r : List Char) (scores : Json)
    (hg : jsGetE parsed (chars "scores") = .ok scores)
    (hsc : bareScoresResolved parsed = false)
    (hpr : barePropertyOnly parsed = false) :
    bareJsonBranch parsed r =
      .ok (Json.obj (objSet (spreadFields parsed) (chars "full_text") (Json.str r))) := by
  obtain ⟨prop, hq⟩ := jsGetE_ok_any parsed (chars "scores") scores hg (chars "property")
  simp only [bareScoresResolved, hg] at hsc
  simp only [barePropertyOnly, hg, hq] at hpr
  simp only [bareJsonBranch, hg, hq, bind, Except.bind]
  by_cases hts : truthy scores = true
  · have hinner := hsc
    rw [hts, Bool.true_and] at hinner
    simp [hts, hinner, hpr, pure, Except.pure]
  · simp only [Bool.not_eq_true] at hts
    rw [hts] at hpr
    simp only [Bool.not_false, Bool.and_true] at hpr
    simp [hts, hpr, pure, Except.pure]

/-- **C8, counterexample.** The bare-JSON input with a `property` field
and no `scores` — a non-empty input from which no score can be resolved —
makes `parseReport` return JS `null` (line 104 of `ScoreCard.jsx`), not
an object carrying the original text as `full_text`. -/
theorem property_only_returns_null :
    parseReport (chars "\x7b\"property\":\x7b\x7d\x7d") = Json.null := rfl

/-- **C8, amended.** `parseReport` never raises, and for every non-empty
input with no fenced block from which no score can be resolved — whether
`JSON.parse` fails outright (the markdown path, which always sets
`full_text`) or the input is bare JSON on which normalization resolves no
overall/quality/financial value — it returns an object carrying the
original text as `full_text`, with the one exception the counterexample
forces: bare JSON parsing to a value with a truthy `property` and falsy
`scores` returns `null` instead (still not an error). -/
theorem normalizer_raw_text_fallback (r : List Char)
    (hne : r.isEmpty = false)
    (hfence : fenceMatch r = none)
    (hscore : ∀ parsed, jsonParse r = some parsed → bareScoresResolved parsed = false)
    (hprop : ∀ parsed, jsonParse r = some parsed → barePropertyOnly parsed = false) :
    jsGetD (parseReport r) (chars "full_text") = Json.str r := by
  rcases hp : jsonParse r with _ | parsed
  · simp only [parseReport, hne, Bool.false_eq_true, if_false, hfence, hp]
    exact markdown_full_text r
  · simp only [parseReport, hne, Bool.false_eq_true, if_false, hfence, hp]
    rcases hg : jsGetE parsed (chars "scores") with e | scores
    · have hb : bareJsonBranch parsed r = .error e := by
        simp only [bareJsonBranch, hg, bind, Except.bind]
      rw [hb]
      exact markdown_full_text r
    · rw [bareJsonBranch_fallback parsed r scores hg (hscore parsed hp) (hprop parsed hp)]
      simp only [jsGetD, jsGetE, objLookup_objSet]

/-- Witness for the amended C8, applying it in both regimes: the
plain-text input `hello` (parse fails, markdown fallback) and the bare
JSON `{"scores":{"x":1}}` (parses, but no score resolves). -/
theorem normalizer_raw_text_fallback_witness :
    jsGetD (parseReport (chars "hello")) (chars "full_text") =
        Json.str (chars "hello") ∧
    jsGetD (parseReport (chars "\x7b\"scores\":\x7b\"x\":1\x7d\x7d")) (chars "full_text") =
      Json.str (chars "\x7b\"scores\":\x7b\"x\":1\x7d\x7d") := by
  constructor
  · exact normalizer_raw_text_fallback _ rfl rfl
      (fun parsed h => by
        rw [show jsonParse (chars "hello") = none from rfl] at h
        cases h)
      (fun parsed h => by
        rw [show jsonParse (chars "hello") = none from rfl] at h
        cases h)
  · exact normalizer_raw_text_fallback _ rfl rfl
      (fun parsed h => by
        have h2 : some (Json.obj [(chars "scores",
            Json.obj [(chars "x", Json.num ⟨1, 0⟩)])]) = some parsed := h
        cases h2
        rfl)
      (fun parsed h => by
        have h2 : some (Json.obj [(chars "scores",
            Json.obj [(chars "x", Json.num ⟨1, 0⟩)])]) = some parsed := h
        cases h2
        rfl)

/-- **C9.** Evaluation of the cancellation wiring at the failing input
(two effect runs for one property view, e.g. mount followed by an `id`
change): two read loops are created and no abort signal is ever
propagated between them, because `fetchProperty` discards the cleanup
function `triggerWatsonAnalysis` returns and the effect body hands React
no cleanup.  The claim — cleanup invoked and abort propagated before a
new stream is created — is what the code's own `// Cleanup on unmount`
comment promises, and the code does not do it. -/
theorem no_abort_before_new_stream :
    propertyViewTrace 2 =
      [StreamAction.streamCreated, StreamAction.streamCreated] := rfl

/-- Witness for C1: a status line split mid-token across two reads decodes
as the unfragmented stream does. -/
theorem decoder_fragmentation_invariant_witness :
    decodeFragments
        [chars "data: \x7b\"type\":\"sta", chars "tus\",\"status\":\"s\"\x7d\n"] =
      decodeFragments
        [chars "data: \x7b\"type\":\"sta" ++ chars "tus\",\"status\":\"s\"\x7d\n"] := by
  have h := decoder_fragmentation_invariant
    [chars "data: \x7b\"type\":\"sta", chars "tus\",\"status\":\"s\"\x7d\n"]
  rw [h]
  rfl

/-- Witness for the amended C5: an error line after the done line is still
decoded. -/
theorem decoder_continues_after_done_witness :
    decodeFragments
        [doneLineEx ++ '\n' :: chars "data: \x7b\"type\":\"error\",\"error\":\"e\"\x7d\n"] =
      SEvent.done (Json.str (chars "abc")) ::
        decodeFragments [chars "data: \x7b\"type\":\"error\",\"error\":\"e\"\x7d\n"] :=
  decoder_continues_after_done.1 _
